import Mathlib

/-!
# AudioAEC: the capture session orchestrator of main.cpp

A shallow embedding of `src/main.cpp` (the self-test `testMicrophone`, the recording run
`main`, their two capture callbacks, the float to 16-bit PCM conversion and the WAV header)
together with the facade `AudioAECWrapper::start`.

Conventions of the embedding.

* A `float` sample is an exact rational. `std::abs`, `std::max`, `std::min` and the
  comparisons are exact on single-precision values, so they are the rational operations.
  The two places where single precision rounds (the product `sample * 32767.0f` and the
  RMS `std::sqrt(localRms / frames)`) are the fields of `FloatOps`; `binary32Ops` gives
  them as IEEE 754 binary32 round-to-nearest computes them.
* The callbacks run on the single realtime thread; the value the flag `recording` /
  `testing` has when a callback loads it is part of the invocation (`Invocation.active`).
* Console output is left out except for the diagnostics the results record as flags.
-/

namespace AudioAEC

/-! ## Floating point and machine integers -/

/-- Single-precision operations of `main.cpp` that are not exact on rationals. -/
structure FloatOps where
  /-- Rounding of an exact result to the single-precision value the hardware returns. -/
  round : ℚ → ℚ
  /-- The value of `std::sqrt(localRms / frames)` after the accumulation loop of the
  recording callback over a batch; `none` is NaN (as for `frames = 0`, where it is
  `sqrt(0/0)`). -/
  rms : List ℚ → Option ℚ

/-- Rounding of a rational to the nearest integer, a tie going to the even one. -/
def roundHalfEven (t : ℚ) : ℤ :=
  if t - ⌊t⌋ < 1 / 2 then ⌊t⌋
  else if 1 / 2 < t - ⌊t⌋ then ⌊t⌋ + 1
  else if ⌊t⌋ % 2 = 0 then ⌊t⌋ else ⌊t⌋ + 1

/-- The spacing of the binary32 values around a magnitude `a`: 2^(e - 23) where 2^e is
the largest power of two that is at most `a`, and e = -126 in the subnormal range. -/
def binary32Ulp (a : ℚ) : ℚ := (2 : ℚ) ^ (max (Int.log 2 a) (-126) - 23)

/-- The binary32 value nearest to a magnitude `a ≥ 0`, ties to even. -/
def roundMagnitude32 (a : ℚ) : ℚ := roundHalfEven (a / binary32Ulp a) * binary32Ulp a

/-- IEEE 754 binary32 round-to-nearest, ties to even, of an exact result (sign and
magnitude). Overflow to infinity is left out: no result in this program leaves the
binary32 range for samples of ordinary size. -/
def roundBinary32 (x : ℚ) : ℚ :=
  if 0 ≤ x then roundMagnitude32 x else -roundMagnitude32 (-x)

/-- The binary32 `std::sqrt`: the correctly rounded square root of a binary32 value,
NaN (`none`) for a negative argument. With q the spacing of the binary32 values around
the root, the root divided by q lies between `f` and `f + 1` for f the integer square root
of v / q^2, and is compared with the midpoint `f + 1/2` through the squares. -/
def sqrtBinary32 (v : ℚ) : Option ℚ :=
  if v < 0 then none
  else
    let q : ℚ := (2 : ℚ) ^ (Int.log 2 v / 2 - 23)
    let t : ℚ := v / (q * q)
    let f : ℕ := Nat.sqrt ⌊t⌋₊
    let m : ℕ :=
      if t < (f + 1 / 2) ^ 2 then f
      else if (f + 1 / 2) ^ 2 < t then f + 1
      else if f % 2 = 0 then f else f + 1
    some (m * q)

/-- Lines 131-138 of the recording callback in binary32: `localRms += sample * sample`
over the batch from 0, each product and each sum rounded, then
`std::sqrt(localRms / frames)` with `frames` converted to float; for `frames = 0` the
quotient is 0/0, a NaN. -/
def rmsBinary32 (data : List ℚ) : Option ℚ :=
  let localRms := data.foldl
    (fun localRms sample => roundBinary32 (localRms + roundBinary32 (sample * sample))) 0
  if data.length = 0 then none
  else sqrtBinary32 (roundBinary32 (localRms / roundBinary32 data.length))

/-- The operations as IEEE 754 binary32 arithmetic performs them, each operation rounded
on its own. -/
def binary32Ops : FloatOps where
  round := roundBinary32
  rms := rmsBinary32

/-- Two's complement wrap-around of `int` (32 bits). -/
def wrapInt32 (x : ℤ) : ℤ := (x + 2 ^ 31) % 2 ^ 32 - 2 ^ 31

/-- Wrap-around of `size_t` (64 bits). -/
def wrapSize (x : ℕ) : ℕ := x % 2 ^ 64

/-- Wrap-around of `uint32_t`. -/
def wrapU32 (x : ℕ) : ℕ := x % 2 ^ 32

/-- The constant `0.001f`: the single-precision value nearest to 0.001. -/
def signalThreshold : ℚ := 8589935 / 2 ^ 33

/-- The constant `1e-6`: the double-precision value nearest to 0.000001. -/
def zeroThreshold : ℚ := 4722366482869645 / 2 ^ 72

/-! ## The lock-free running maximum -/

/-- The loop
`float cur = a.load(); while (local > cur && !a.compare_exchange_weak(cur, local));`
run by the only thread that writes the atomic `a`. `atom` is the value of `a`; since no
other thread writes it, `cur` equals `atom` at every test of the loop condition (a failed
exchange reloads `cur` from `a`). `spurious` lists the outcomes of the successive weak
exchanges: `true` is a spurious failure; once the list is used up no exchange fails.
The result is the value of `a` when the loop exits. -/
def casMaxLoop : List Bool → ℚ → ℚ → ℚ
  | [], atom, localVal => if localVal > atom then localVal else atom
  | fails :: rest, atom, localVal =>
    if localVal > atom then
      (if fails then casMaxLoop rest atom localVal else localVal)
    else atom

/-- The loop `for (i < frames) localMax = std::max(localMax, std::abs(data[i]))`
starting from `localMax = 0.0f`. -/
def localMaxOf (data : List ℚ) : ℚ :=
  data.foldl (fun localMax sample => max localMax |sample|) 0

/-! ## Callback invocations -/

/-- One invocation `callback(data, frames)` as the callback observes it. -/
structure Invocation where
  /-- The value `recording.load()` / `testing.load()` returns in this invocation. -/
  active : Bool
  /-- The batch `data[0 .. frames)`; `frames` is its length. -/
  data : List ℚ
  /-- Spurious failures of the weak exchanges on the max-amplitude atomic. -/
  spuriousMax : List Bool := []
  /-- Spurious failures of the weak exchanges on the RMS atomic. -/
  spuriousRms : List Bool := []

/-- The parameter `frames` of an invocation. -/
def Invocation.frames (inv : Invocation) : ℕ := inv.data.length

/-! ## The self-test callback (main.cpp 40-65) -/

/-- The variables captured by the callback of `testMicrophone`. -/
structure TestState where
  testBuffer : List ℚ
  testCallbackCount : ℤ
  testMaxAmplitude : ℚ

/-- The values at lines 33-36. -/
def TestState.init : TestState :=
  { testBuffer := [], testCallbackCount := 0, testMaxAmplitude := 0 }

/-- The lambda passed to `aec.start` in `testMicrophone`. -/
def testCallback (st : TestState) (inv : Invocation) : TestState :=
  let count := wrapInt32 (st.testCallbackCount + 1)
  if inv.active then
    let localMax := localMaxOf inv.data
    { testBuffer := st.testBuffer ++ inv.data
      testCallbackCount := count
      testMaxAmplitude := casMaxLoop inv.spuriousMax st.testMaxAmplitude localMax }
  else
    { st with testCallbackCount := count }

/-! ## The recording callback (main.cpp 124-170) -/

/-- The variables captured by the callback of `main`. -/
structure RecordingState where
  audioBuffer : List ℚ
  callbackCount : ℤ
  totalFrames : ℕ
  maxAmplitude : ℚ
  rmsLevel : ℚ

/-- The values at lines 106 and 118-122. -/
def RecordingState.init : RecordingState :=
  { audioBuffer := [], callbackCount := 0, totalFrames := 0, maxAmplitude := 0, rmsLevel := 0 }

/-- The update of `rmsLevel` at lines 144-145; a NaN `localRms` fails the comparison
`localRms > currentRms` and leaves the atomic as it is. -/
def updateRms (spurious : List Bool) (rmsLevel : ℚ) : Option ℚ → ℚ
  | none => rmsLevel
  | some localRms => casMaxLoop spurious rmsLevel localRms

/-- The lambda passed to `aec.start` in `main`: the state after the invocation, and the
indices `i` of every read `data[i]` the invocation performs, in program order (the
statistics loop, the `insert` of `data .. data + frames`, and the debug line printed when
the callback count is a multiple of 100). -/
def recordingCallback (ops : FloatOps) (st : RecordingState) (inv : Invocation) :
    RecordingState × List ℕ :=
  let frames := inv.frames
  let count := wrapInt32 (st.callbackCount + 1)
  let total := wrapSize (st.totalFrames + frames)
  if inv.active then
    let localMax := localMaxOf inv.data
    let localRms := ops.rms inv.data
    let st1 : RecordingState :=
      { audioBuffer := st.audioBuffer ++ inv.data
        callbackCount := count
        totalFrames := total
        maxAmplitude := casMaxLoop inv.spuriousMax st.maxAmplitude localMax
        rmsLevel := updateRms inv.spuriousRms st.rmsLevel localRms }
    let debugReads : List ℕ := if count.tmod 100 = 0 then [0, 1, 2, 3, 4] else []
    (st1, List.range frames ++ List.range frames ++ debugReads)
  else
    ({ st with callbackCount := count, totalFrames := total }, [])

/-- The state after a sequence of invocations of the self-test callback. -/
def runTestCallbacks (st : TestState) (trace : List Invocation) : TestState :=
  trace.foldl testCallback st

/-- The state after a sequence of invocations of the recording callback. -/
def runRecordingCallbacks (ops : FloatOps) (st : RecordingState) (trace : List Invocation) :
    RecordingState :=
  trace.foldl (fun s inv => (recordingCallback ops s inv).1) st

/-! ## The engine behind the facade -/

/-- Modelled from the spec: the engine `AudioAECImpl` behind `AudioAECWrapper`, whose
`start` and `stop` are declared in AudioAECImpl.h and defined outside the sources. Per
the engine callback contract the callback is invoked zero or more times between `start`
returning true and `stop` completing, and a failed `start` reports false and delivers
nothing. A run of the engine is therefore either a failed start or the sequence of
invocations it delivers up to the completion of `stop`. -/
inductive EngineRun where
  | startFailed
  | started (delivered : List Invocation)

/-- The result of `AudioAECWrapper::start` (AudioAECWrapper.cpp 17-19), which forwards
to the engine. -/
def AudioAECWrapper.start : EngineRun → Bool
  | .startFailed => false
  | .started _ => true

/-- The invocations the engine makes before `AudioAECWrapper::stop` returns. -/
def EngineRun.delivered : EngineRun → List Invocation
  | .startFailed => []
  | .started trace => trace

/-! ## testMicrophone (main.cpp 29-102) -/

/-- What a call of `testMicrophone` leaves behind. -/
structure TestResult where
  /-- The returned value. -/
  ret : Bool
  /-- The message at line 68. -/
  startFailureReported : Bool
  testBuffer : List ℚ
  testCallbackCount : ℤ
  testMaxAmplitude : ℚ

/-- The function `testMicrophone`. The wall-clock parameter `testDuration` only decides
when `testing` is cleared, that is which invocations of the run see the flag true. -/
def testMicrophone (engine : EngineRun) : TestResult :=
  let st := runTestCallbacks TestState.init engine.delivered
  if !AudioAECWrapper.start engine then
    { ret := false, startFailureReported := true, testBuffer := st.testBuffer
      testCallbackCount := st.testCallbackCount, testMaxAmplitude := st.testMaxAmplitude }
  else
    let hasAudioSignal : Bool := decide (st.testMaxAmplitude > signalThreshold)
    { ret := hasAudioSignal, startFailureReported := false, testBuffer := st.testBuffer
      testCallbackCount := st.testCallbackCount, testMaxAmplitude := st.testMaxAmplitude }

/-! ## PCM conversion and the WAV file (main.cpp 12-26, 230-264) -/

/-- The conversion `static_cast<int16_t>` of a float in the range of `int16_t`:
truncation toward zero. -/
def truncToZero (y : ℚ) : ℤ := if 0 ≤ y then ⌊y⌋ else ⌈y⌉

/-- The body of the conversion loop at lines 234-235. -/
def floatToInt16 (ops : FloatOps) (x : ℚ) : ℤ :=
  let sample := max (-1) (min 1 x)
  truncToZero (ops.round (sample * 32767))

/-- The struct `WAVHeader` with its default member initialisers. -/
structure WAVHeader where
  riff : List Char := ['R', 'I', 'F', 'F']
  chunkSize : ℕ
  wave : List Char := ['W', 'A', 'V', 'E']
  fmt : List Char := ['f', 'm', 't', ' ']
  fmtChunkSize : ℕ := 16
  audioFormat : ℕ := 1
  numChannels : ℕ := 1
  sampleRate : ℕ := 48000
  byteRate : ℕ := 48000 * 2
  blockAlign : ℕ := 2
  bitsPerSample : ℕ := 16
  data : List Char := ['d', 'a', 't', 'a']
  dataChunkSize : ℕ

/-- The header after lines 248-250, for a `pcmBuffer` of `pcmSize` elements. -/
def prepareHeader (pcmSize : ℕ) : WAVHeader :=
  let dataChunkSize := wrapU32 (wrapSize (pcmSize * 2))
  { dataChunkSize := dataChunkSize, chunkSize := wrapU32 (36 + dataChunkSize) }

/-- The `width` bytes of an unsigned value, least significant first. -/
def leBytes (width : ℕ) (v : ℕ) : List ℕ :=
  (List.range width).map (fun i => v / 256 ^ i % 256)

/-- The object representation of a `WAVHeader` that `file.write` emits at line 253:
the members in declaration order, which need no padding. -/
def WAVHeader.bytes (h : WAVHeader) : List ℕ :=
  h.riff.map Char.toNat ++ leBytes 4 h.chunkSize ++ h.wave.map Char.toNat ++
    h.fmt.map Char.toNat ++ leBytes 4 h.fmtChunkSize ++ leBytes 2 h.audioFormat ++
    leBytes 2 h.numChannels ++ leBytes 4 h.sampleRate ++ leBytes 4 h.byteRate ++
    leBytes 2 h.blockAlign ++ leBytes 2 h.bitsPerSample ++ h.data.map Char.toNat ++
    leBytes 4 h.dataChunkSize

/-- The two bytes of an `int16_t` in memory. -/
def int16Bytes (q : ℤ) : List ℕ := leBytes 2 (q % 65536).toNat

/-- The bytes `file.write` emits at lines 256-257 (`pcmBuffer.size() * sizeof(int16_t)`
bytes starting at `pcmBuffer.data()`). -/
def pcmBytes (pcmBuffer : List ℤ) : List ℕ :=
  (pcmBuffer.flatMap int16Bytes).take (wrapSize (pcmBuffer.length * 2))

/-! ## main (main.cpp 104-268) -/

/-- What a run of `main` leaves behind. -/
structure MainResult where
  /-- The value returned by `main`. -/
  exitCode : ℤ
  /-- The message at line 173. -/
  startFailureReported : Bool
  /-- The messages at lines 202-206. -/
  emptyCaptureReported : Bool
  /-- The messages at lines 221-225. -/
  silenceWarning : Bool
  /-- The message at line 243. -/
  openFailureReported : Bool
  /-- The bytes written to the output file, when it was opened. -/
  file : Option (List ℕ)
  /-- The number printed as the file size at line 264. -/
  reportedFileSize : Option ℕ
  audioBuffer : List ℚ
  callbackCount : ℤ
  totalFrames : ℕ
  maxAmplitude : ℚ
  rmsLevel : ℚ

/-- The loop at lines 211-218: the flag `allZero` and the value `maxVal`. -/
def scanBuffer (audioBuffer : List ℚ) : Bool × ℚ :=
  audioBuffer.foldl
    (fun acc sample =>
      (if |sample| > zeroThreshold then false else acc.1, max acc.2 |sample|))
    (true, 0)

/-- The function `main`, given the floating-point operations, the run of the engine and
whether the output file can be opened. The wall-clock wait of lines 180-190 only decides
when `recording` is cleared, that is which invocations of the run see the flag true. -/
def main (ops : FloatOps) (engine : EngineRun) (fileOpens : Bool) : MainResult :=
  let st := runRecordingCallbacks ops RecordingState.init engine.delivered
  let base : MainResult :=
    { exitCode := 0, startFailureReported := false, emptyCaptureReported := false
      silenceWarning := false, openFailureReported := false, file := none
      reportedFileSize := none, audioBuffer := st.audioBuffer
      callbackCount := st.callbackCount, totalFrames := st.totalFrames
      maxAmplitude := st.maxAmplitude, rmsLevel := st.rmsLevel }
  if !AudioAECWrapper.start engine then
    { base with exitCode := -1, startFailureReported := true }
  else if st.audioBuffer.isEmpty then
    { base with exitCode := -1, emptyCaptureReported := true }
  else
    let allZero := (scanBuffer st.audioBuffer).1
    let pcmBuffer := st.audioBuffer.map (floatToInt16 ops)
    if !fileOpens then
      { base with exitCode := -1, silenceWarning := allZero, openFailureReported := true }
    else
      let header := prepareHeader pcmBuffer.length
      { base with
        exitCode := 0
        silenceWarning := allZero
        file := some (header.bytes ++ pcmBytes pcmBuffer)
        reportedFileSize := some (wrapSize (36 + wrapSize (pcmBuffer.length * 2))) }

/-! ## Reference notions used to state the properties -/

/-- The samples of every delivered batch, in delivery order. -/
def deliveredSamples (trace : List Invocation) : List ℚ :=
  trace.flatMap (fun inv => inv.data)

/-- The invocations made while the session flag was true. -/
def activeWindow (trace : List Invocation) : List Invocation :=
  trace.filter (fun inv => inv.active)

/-- The true maximum absolute value of a collection of samples, 0 for no sample:
`m` bounds every absolute value and is attained unless there is no sample. -/
def IsTruePeak (samples : List ℚ) (m : ℚ) : Prop :=
  (∀ x ∈ samples, |x| ≤ m) ∧ (samples = [] → m = 0) ∧ (samples ≠ [] → ∃ x ∈ samples, |x| = m)

/-! ## Concrete runs used as examples -/

/-- A batch with one sample of value 1, delivered after the flag was cleared. -/
def lateLoudBatch : Invocation := { active := false, data := [1] }

/-- Half a period of a sine of amplitude 1/2 at eight samples per period, delivered
while the flag is true. -/
def sineHalfUp : Invocation := { active := true, data := [0, 1/4, 1/2, 1/4] }

/-- The other half of the period; the first weak exchange on the peak fails spuriously. -/
def sineHalfDown : Invocation :=
  { active := true, data := [0, -1/4, -1/2, -1/4], spuriousMax := [true] }

/-- A batch of value 3/4 delivered after the flag was cleared. -/
def lateBatch : Invocation := { active := false, data := [3/4] }

/-- A batch of three zero samples delivered while the flag is true. -/
def zeroBatch : Invocation := { active := true, data := [0, 0, 0] }

/-- A silent session: two all-zero batches in the active window, then a batch with
signal after the flag was cleared. -/
def silentRun : EngineRun := EngineRun.started [zeroBatch, zeroBatch, lateLoudBatch]

/-- A session in which the engine starts and delivers nothing. -/
def emptyRun : EngineRun := EngineRun.started []

/-- A session of one period of the sine, eight samples. -/
def sineRun : EngineRun := EngineRun.started [sineHalfUp, sineHalfDown]

/-- The state of the recording callback after 99 invocations that buffered nothing. -/
def afterNinetyNine : RecordingState := { RecordingState.init with callbackCount := 99 }

/-- A batch of three frames delivered while the flag is true. -/
def shortBatch : Invocation := { active := true, data := [1/8, 0, -1/8] }

/-- The single-precision value next above 1/32768. -/
def justAboveStep : ℚ := (2 ^ 23 + 1) / 2 ^ 38

/-- Reference dequantisation of the round-trip property, which the program itself does
not contain: the 16-bit value divided by the scale 32767 of the conversion. -/
def dequantize (q : ℤ) : ℚ := (q : ℚ) / 32767

/-! ## Lemmas on the running maximum -/

lemma casMaxLoop_eq_max (spurious : List Bool) (atom localVal : ℚ) :
    casMaxLoop spurious atom localVal = max atom localVal := by
  induction spurious with
  | nil =>
    unfold casMaxLoop
    split_ifs with h
    · exact (max_eq_right h.le).symm
    · exact (max_eq_left (not_lt.mp h)).symm
  | cons fails rest ih =>
    unfold casMaxLoop
    split_ifs with h hf
    · exact ih
    · exact (max_eq_right h.le).symm
    · exact (max_eq_left (not_lt.mp h)).symm

lemma foldl_max_abs_eq (data : List ℚ) (a : ℚ) (ha : 0 ≤ a) :
    data.foldl (fun localMax sample => max localMax |sample|) a = max a (localMaxOf data) := by
  induction data generalizing a with
  | nil => simp [localMaxOf, ha]
  | cons x xs ih =>
    have h0 : (0 : ℚ) ≤ |x| := abs_nonneg x
    simp only [localMaxOf, List.foldl_cons]
    rw [ih (max a |x|) (le_max_of_le_left ha), ih (max 0 |x|) (le_max_left _ _),
      max_eq_right h0, max_assoc]

lemma localMaxOf_nil : localMaxOf [] = 0 := rfl

lemma localMaxOf_cons (x : ℚ) (xs : List ℚ) :
    localMaxOf (x :: xs) = max |x| (localMaxOf xs) := by
  have h0 : (0 : ℚ) ≤ |x| := abs_nonneg x
  have h := foldl_max_abs_eq xs (max 0 |x|) (le_max_left _ _)
  rw [max_eq_right h0] at h
  simpa [localMaxOf, max_eq_right h0] using h

lemma localMaxOf_append (xs ys : List ℚ) :
    localMaxOf (xs ++ ys) = max (localMaxOf xs) (localMaxOf ys) := by
  induction xs with
  | nil =>
    have : (0 : ℚ) ≤ localMaxOf ys := by
      induction ys with
      | nil => simp [localMaxOf_nil]
      | cons y ys _ => rw [localMaxOf_cons]; exact le_max_of_le_left (abs_nonneg y)
    simp [localMaxOf_nil, max_eq_right this]
  | cons x xs ih => simp [localMaxOf_cons, ih, max_assoc]

lemma localMaxOf_nonneg (xs : List ℚ) : 0 ≤ localMaxOf xs := by
  cases xs with
  | nil => simp [localMaxOf_nil]
  | cons y ys => rw [localMaxOf_cons]; exact le_max_of_le_left (abs_nonneg y)

lemma localMaxOf_isTruePeak (xs : List ℚ) : IsTruePeak xs (localMaxOf xs) := by
  induction xs with
  | nil => exact ⟨by simp, fun _ => rfl, fun h => absurd rfl h⟩
  | cons x xs ih =>
    obtain ⟨hb, hnil, hatt⟩ := ih
    refine ⟨?_, by simp, fun _ => ?_⟩
    · intro y hy
      rw [localMaxOf_cons]
      rcases List.mem_cons.mp hy with rfl | hy
      · exact le_max_left _ _
      · exact le_max_of_le_right (hb y hy)
    · rw [localMaxOf_cons]
      rcases le_total (localMaxOf xs) |x| with h | h
      · exact ⟨x, List.mem_cons_self _ _, (max_eq_left h).symm⟩
      · rw [max_eq_right h]
        by_cases hx : xs = []
        · subst hx
          rw [localMaxOf_nil] at h ⊢
          exact ⟨x, List.mem_cons_self _ _, le_antisymm h (abs_nonneg x)⟩
        · obtain ⟨y, hy, hyx⟩ := hatt hx
          exact ⟨y, List.mem_cons_of_mem _ hy, hyx⟩

lemma isTruePeak_unique {samples : List ℚ} {m m2 : ℚ}
    (h : IsTruePeak samples m) (h2 : IsTruePeak samples m2) : m = m2 := by
  by_cases hs : samples = []
  · rw [h.2.1 hs, h2.2.1 hs]
  · obtain ⟨x, hx, hxm⟩ := h.2.2 hs
    obtain ⟨y, hy, hym⟩ := h2.2.2 hs
    exact le_antisymm (hxm ▸ h2.1 x hx) (hym ▸ h.1 y hy)

/-! ## Lemmas on runs of the callbacks -/

lemma testCallback_active (st : TestState) (inv : Invocation) (h : inv.active = true) :
    testCallback st inv =
      { testBuffer := st.testBuffer ++ inv.data
        testCallbackCount := wrapInt32 (st.testCallbackCount + 1)
        testMaxAmplitude := max st.testMaxAmplitude (localMaxOf inv.data) } := by
  simp [testCallback, h, casMaxLoop_eq_max]

lemma testCallback_inactive (st : TestState) (inv : Invocation) (h : inv.active = false) :
    testCallback st inv = { st with testCallbackCount := wrapInt32 (st.testCallbackCount + 1) } := by
  simp [testCallback, h]

lemma recordingCallback_active_buffer (ops : FloatOps) (st : RecordingState) (inv : Invocation)
    (h : inv.active = true) :
    (recordingCallback ops st inv).1.audioBuffer = st.audioBuffer ++ inv.data ∧
    (recordingCallback ops st inv).1.maxAmplitude = max st.maxAmplitude (localMaxOf inv.data) := by
  simp [recordingCallback, h, casMaxLoop_eq_max]

lemma recordingCallback_inactive (ops : FloatOps) (st : RecordingState) (inv : Invocation)
    (h : inv.active = false) :
    (recordingCallback ops st inv).1.audioBuffer = st.audioBuffer ∧
    (recordingCallback ops st inv).1.maxAmplitude = st.maxAmplitude ∧
    (recordingCallback ops st inv).1.rmsLevel = st.rmsLevel := by
  simp [recordingCallback, h]

lemma runTestCallbacks_buffer_max (st : TestState) (trace : List Invocation)
    (h0 : 0 ≤ st.testMaxAmplitude) :
    (runTestCallbacks st trace).testBuffer
        = st.testBuffer ++ deliveredSamples (activeWindow trace) ∧
    (runTestCallbacks st trace).testMaxAmplitude
        = max st.testMaxAmplitude (localMaxOf (deliveredSamples (activeWindow trace))) := by
  induction trace generalizing st with
  | nil => simp [runTestCallbacks, deliveredSamples, activeWindow, localMaxOf_nil, h0]
  | cons inv rest ih =>
    have hstep : runTestCallbacks st (inv :: rest) = runTestCallbacks (testCallback st inv) rest := rfl
    rw [hstep]
    cases hact : inv.active with
    | true =>
      obtain ⟨hb, hm⟩ := ih (testCallback st inv)
        (by rw [testCallback_active st inv hact]; exact le_max_of_le_left h0)
      rw [hb, hm, testCallback_active st inv hact]
      simp [deliveredSamples, activeWindow, hact, localMaxOf_append, max_assoc]
    | false =>
      obtain ⟨hb, hm⟩ := ih (testCallback st inv)
        (by rw [testCallback_inactive st inv hact]; exact h0)
      rw [hb, hm, testCallback_inactive st inv hact]
      simp [deliveredSamples, activeWindow, hact]

lemma runRecordingCallbacks_buffer_max (ops : FloatOps) (st : RecordingState)
    (trace : List Invocation) (h0 : 0 ≤ st.maxAmplitude) :
    (runRecordingCallbacks ops st trace).audioBuffer
        = st.audioBuffer ++ deliveredSamples (activeWindow trace) ∧
    (runRecordingCallbacks ops st trace).maxAmplitude
        = max st.maxAmplitude (localMaxOf (deliveredSamples (activeWindow trace))) := by
  induction trace generalizing st with
  | nil => simp [runRecordingCallbacks, deliveredSamples, activeWindow, localMaxOf_nil, h0]
  | cons inv rest ih =>
    have hstep : runRecordingCallbacks ops st (inv :: rest)
        = runRecordingCallbacks ops (recordingCallback ops st inv).1 rest := rfl
    rw [hstep]
    cases hact : inv.active with
    | true =>
      obtain ⟨h1, h2⟩ := recordingCallback_active_buffer ops st inv hact
      obtain ⟨hb, hm⟩ := ih (recordingCallback ops st inv).1
        (by rw [h2]; exact le_max_of_le_left h0)
      rw [hb, hm, h1, h2]
      simp [deliveredSamples, activeWindow, hact, localMaxOf_append, max_assoc]
    | false =>
      obtain ⟨h1, h2, _⟩ := recordingCallback_inactive ops st inv hact
      obtain ⟨hb, hm⟩ := ih (recordingCallback ops st inv).1 (by rw [h2]; exact h0)
      rw [hb, hm, h1, h2]
      simp [deliveredSamples, activeWindow, hact]

lemma length_deliveredSamples (trace : List Invocation) :
    (deliveredSamples trace).length = (trace.map Invocation.frames).sum := by
  induction trace with
  | nil => rfl
  | cons inv rest ih =>
    simp only [deliveredSamples, List.flatMap_cons, List.length_append, List.map_cons,
      List.sum_cons, Invocation.frames] at ih ⊢
    rw [ih]

lemma mem_activeSamples_of_perm {trace reordered : List Invocation}
    (hperm : reordered.Perm trace) (x : ℚ) :
    x ∈ deliveredSamples (activeWindow reordered) ↔ x ∈ deliveredSamples (activeWindow trace) := by
  simp only [deliveredSamples, activeWindow, List.mem_flatMap, List.mem_filter]
  constructor
  · rintro ⟨inv, ⟨hin, hact⟩, hx⟩
    exact ⟨inv, ⟨(hperm.mem_iff).mp hin, hact⟩, hx⟩
  · rintro ⟨inv, ⟨hin, hact⟩, hx⟩
    exact ⟨inv, ⟨(hperm.mem_iff).mpr hin, hact⟩, hx⟩

lemma isTruePeak_of_mem_iff {xs ys : List ℚ} {m : ℚ} (h : ∀ x, x ∈ xs ↔ x ∈ ys)
    (hp : IsTruePeak xs m) : IsTruePeak ys m := by
  obtain ⟨hb, hnil, hatt⟩ := hp
  have hne : ys ≠ [] → xs ≠ [] := by
    intro hys hxs
    obtain ⟨y, hy⟩ := List.exists_mem_of_ne_nil ys hys
    have := (h y).mpr hy
    simp [hxs] at this
  refine ⟨fun x hx => hb x ((h x).mpr hx), fun hys => hnil ?_, fun hys => ?_⟩
  · by_contra hxs
    obtain ⟨x, hx⟩ := List.exists_mem_of_ne_nil xs hxs
    have := (h x).mp hx
    simp [hys] at this
  · obtain ⟨x, hx, hxm⟩ := hatt (hne hys)
    exact ⟨x, (h x).mp hx, hxm⟩

lemma recording_peak_isTruePeak (ops : FloatOps) (trace : List Invocation) :
    IsTruePeak (deliveredSamples (activeWindow trace))
      (runRecordingCallbacks ops RecordingState.init trace).maxAmplitude := by
  have h := (runRecordingCallbacks_buffer_max ops RecordingState.init trace le_rfl).2
  have h0 : RecordingState.init.maxAmplitude = 0 := rfl
  rw [h, h0, max_eq_right (localMaxOf_nonneg _)]
  exact localMaxOf_isTruePeak _

lemma test_peak_isTruePeak (trace : List Invocation) :
    IsTruePeak (deliveredSamples (activeWindow trace))
      (runTestCallbacks TestState.init trace).testMaxAmplitude := by
  have h := (runTestCallbacks_buffer_max TestState.init trace le_rfl).2
  have h0 : TestState.init.testMaxAmplitude = 0 := rfl
  rw [h, h0, max_eq_right (localMaxOf_nonneg _)]
  exact localMaxOf_isTruePeak _

lemma isTruePeak_eq_of_attained {samples : List ℚ} {m a : ℚ} (hp : IsTruePeak samples m)
    (hb : ∀ x ∈ samples, |x| ≤ a) (ha : ∃ x ∈ samples, |x| = a) : m = a := by
  obtain ⟨x, hx, hxa⟩ := ha
  have hne : samples ≠ [] := List.ne_nil_of_mem hx
  obtain ⟨y, hy, hym⟩ := hp.2.2 hne
  exact le_antisymm (hym ▸ hb y hy) (hxa ▸ hp.1 x hx)

/-! ## C1: the session buffer -/

/-- C1: for every sequence of callback invocations, the session buffer after the last
invocation (audioBuffer in main, testBuffer in testMicrophone) is the concatenation, in
invocation order, of exactly the batches delivered while the flag was true, and its
length is the sum of frameCount over those invocations. -/
theorem session_buffer_is_concatenation_of_active_batches
    (ops : FloatOps) (trace : List Invocation) (fileOpens : Bool) :
    (runRecordingCallbacks ops RecordingState.init trace).audioBuffer
        = (trace.filter (fun inv => inv.active)).flatMap (fun inv => inv.data) ∧
    (runRecordingCallbacks ops RecordingState.init trace).audioBuffer.length
        = ((trace.filter (fun inv => inv.active)).map (fun inv => inv.frames)).sum ∧
    (runTestCallbacks TestState.init trace).testBuffer
        = (trace.filter (fun inv => inv.active)).flatMap (fun inv => inv.data) ∧
    (runTestCallbacks TestState.init trace).testBuffer.length
        = ((trace.filter (fun inv => inv.active)).map (fun inv => inv.frames)).sum ∧
    (main ops (EngineRun.started trace) fileOpens).audioBuffer
        = (trace.filter (fun inv => inv.active)).flatMap (fun inv => inv.data) ∧
    (testMicrophone (EngineRun.started trace)).testBuffer
        = (trace.filter (fun inv => inv.active)).flatMap (fun inv => inv.data) := by
  have hr := (runRecordingCallbacks_buffer_max ops RecordingState.init trace le_rfl).1
  have ht := (runTestCallbacks_buffer_max TestState.init trace le_rfl).1
  have hr0 : RecordingState.init.audioBuffer = [] := rfl
  have ht0 : TestState.init.testBuffer = [] := rfl
  rw [hr0, List.nil_append] at hr
  rw [ht0, List.nil_append] at ht
  have hlen := length_deliveredSamples (activeWindow trace)
  have hmain : (main ops (EngineRun.started trace) fileOpens).audioBuffer
      = (runRecordingCallbacks ops RecordingState.init trace).audioBuffer := by
    simp only [main, AudioAECWrapper.start, EngineRun.delivered]
    split_ifs <;> rfl
  have htest : (testMicrophone (EngineRun.started trace)).testBuffer
      = (runTestCallbacks TestState.init trace).testBuffer := by
    simp only [testMicrophone, AudioAECWrapper.start, EngineRun.delivered]
    split_ifs <;> rfl
  refine ⟨hr, ?_, ht, ?_, ?_, ?_⟩
  · rw [hr]; exact hlen
  · rw [ht]; exact hlen
  · rw [hmain]; exact hr
  · rw [htest]; exact ht

/-! ## C2: the running maximum amplitude -/

/-- C2 as stated fails: a batch delivered while the flag is false (here the single batch
[1]) is not merged into the accumulators, so both stay at 0 although the true maximum
absolute value over all delivered batches is 1. -/
theorem peak_ignores_batches_outside_active_window :
    (1 : ℚ) ∈ deliveredSamples [lateLoudBatch] ∧
    (runRecordingCallbacks binary32Ops RecordingState.init [lateLoudBatch]).maxAmplitude = 0 ∧
    (runTestCallbacks TestState.init [lateLoudBatch]).testMaxAmplitude = 0 ∧
    ¬ IsTruePeak (deliveredSamples [lateLoudBatch])
        (runRecordingCallbacks binary32Ops RecordingState.init [lateLoudBatch]).maxAmplitude ∧
    ¬ IsTruePeak (deliveredSamples [lateLoudBatch])
        (runTestCallbacks TestState.init [lateLoudBatch]).testMaxAmplitude := by
  have hmem : (1 : ℚ) ∈ deliveredSamples [lateLoudBatch] := by
    simp [deliveredSamples, lateLoudBatch]
  have hr : (runRecordingCallbacks binary32Ops RecordingState.init [lateLoudBatch]).maxAmplitude
      = 0 := by
    simp [runRecordingCallbacks, recordingCallback, RecordingState.init, lateLoudBatch]
  have ht : (runTestCallbacks TestState.init [lateLoudBatch]).testMaxAmplitude = 0 := by
    simp [runTestCallbacks, testCallback, TestState.init, lateLoudBatch]
  refine ⟨hmem, hr, ht, ?_, ?_⟩
  · intro h
    have h1 := h.1 1 hmem
    rw [hr] at h1
    norm_num at h1
  · intro h
    have h1 := h.1 1 hmem
    rw [ht] at h1
    norm_num at h1

/-- C2 (amended): for every sequence of invocations, the max-amplitude accumulator
(maxAmplitude in main, testMaxAmplitude in testMicrophone, both starting at 0) equals
after the last invocation the true maximum absolute sample value across the batches
delivered while the flag was true (0 when there is no such sample); delivering the same
invocations in another order gives the same value; and when every such sample has
absolute value at most a and one attains a, the peak is exactly a. -/
theorem peak_accumulator_is_true_peak_of_active_batches
    (ops : FloatOps) (trace reordered : List Invocation) (hperm : reordered.Perm trace) :
    IsTruePeak (deliveredSamples (activeWindow trace))
      (runRecordingCallbacks ops RecordingState.init trace).maxAmplitude ∧
    IsTruePeak (deliveredSamples (activeWindow trace))
      (runTestCallbacks TestState.init trace).testMaxAmplitude ∧
    (runRecordingCallbacks ops RecordingState.init reordered).maxAmplitude
      = (runRecordingCallbacks ops RecordingState.init trace).maxAmplitude ∧
    (runTestCallbacks TestState.init reordered).testMaxAmplitude
      = (runTestCallbacks TestState.init trace).testMaxAmplitude ∧
    (∀ a : ℚ, (∀ x ∈ deliveredSamples (activeWindow trace), |x| ≤ a) →
      (∃ x ∈ deliveredSamples (activeWindow trace), |x| = a) →
      (runRecordingCallbacks ops RecordingState.init trace).maxAmplitude = a ∧
      (runTestCallbacks TestState.init trace).testMaxAmplitude = a) := by
  have hr := recording_peak_isTruePeak ops trace
  have ht := test_peak_isTruePeak trace
  have hr2 := isTruePeak_of_mem_iff (mem_activeSamples_of_perm hperm)
    (recording_peak_isTruePeak ops reordered)
  have ht2 := isTruePeak_of_mem_iff (mem_activeSamples_of_perm hperm)
    (test_peak_isTruePeak reordered)
  exact ⟨hr, ht, isTruePeak_unique hr2 hr, isTruePeak_unique ht2 ht,
    fun a hb ha => ⟨isTruePeak_eq_of_attained hr hb ha, isTruePeak_eq_of_attained ht hb ha⟩⟩

/-- Witness for C2 (amended): two batches of a sine of amplitude 1/2 sampled at eight
points per period, delivered in either order while the flag is true, and a louder batch
delivered after the flag was cleared. -/
theorem peak_accumulator_is_true_peak_of_active_batches_witness :
    List.Perm [sineHalfDown, sineHalfUp, lateBatch] [sineHalfUp, sineHalfDown, lateBatch] ∧
    (runRecordingCallbacks binary32Ops RecordingState.init
      [sineHalfUp, sineHalfDown, lateBatch]).maxAmplitude = 1/2 ∧
    (runTestCallbacks TestState.init
      [sineHalfUp, sineHalfDown, lateBatch]).testMaxAmplitude = 1/2 :=
  ⟨List.Perm.swap _ _ _,
    (peak_accumulator_is_true_peak_of_active_batches binary32Ops
      [sineHalfUp, sineHalfDown, lateBatch] [sineHalfDown, sineHalfUp, lateBatch]
      (List.Perm.swap _ _ _)).2.2.2.2
      (1/2)
      (by
        intro x hx
        simp [deliveredSamples, activeWindow, sineHalfUp, sineHalfDown, lateBatch] at hx
        rcases hx with rfl | rfl | rfl | rfl | rfl | rfl | rfl | rfl <;> norm_num [abs_le])
      ⟨1/2, by simp [deliveredSamples, activeWindow, sineHalfUp, sineHalfDown, lateBatch],
        by norm_num⟩⟩

/-! ## C8: the statistics accumulators never decrease -/

lemma casMaxLoop_ge (spurious : List Bool) (atom localVal : ℚ) :
    atom ≤ casMaxLoop spurious atom localVal := by
  rw [casMaxLoop_eq_max]; exact le_max_left _ _

lemma updateRms_ge (spurious : List Bool) (rmsLevel : ℚ) (localRms : Option ℚ) :
    rmsLevel ≤ updateRms spurious rmsLevel localRms := by
  cases localRms with
  | none => exact le_rfl
  | some r => exact casMaxLoop_ge spurious rmsLevel r

lemma recordingCallback_mono (ops : FloatOps) (st : RecordingState) (inv : Invocation) :
    st.maxAmplitude ≤ (recordingCallback ops st inv).1.maxAmplitude ∧
    st.rmsLevel ≤ (recordingCallback ops st inv).1.rmsLevel := by
  cases hact : inv.active with
  | true =>
    simp only [recordingCallback, hact, if_true]
    exact ⟨casMaxLoop_ge _ _ _, updateRms_ge _ _ _⟩
  | false =>
    obtain ⟨_, h2, h3⟩ := recordingCallback_inactive ops st inv hact
    rw [h2, h3]
    exact ⟨le_rfl, le_rfl⟩

lemma testCallback_mono (st : TestState) (inv : Invocation) :
    st.testMaxAmplitude ≤ (testCallback st inv).testMaxAmplitude := by
  cases hact : inv.active with
  | true => rw [testCallback_active st inv hact]; exact le_max_left _ _
  | false => rw [testCallback_inactive st inv hact]

/-- C8: the max-amplitude and max-RMS accumulators start at 0 and every callback
invocation, whatever the batch, the flag, the state before it and the outcome of the
floating-point RMS computation, leaves each accumulator greater than or equal to its
value before the invocation; hence no run of invocations lowers them. -/
theorem statistics_accumulators_never_decrease
    (ops : FloatOps) (st : RecordingState) (tst : TestState) (inv : Invocation)
    (trace : List Invocation) :
    RecordingState.init.maxAmplitude = 0 ∧ RecordingState.init.rmsLevel = 0 ∧
    TestState.init.testMaxAmplitude = 0 ∧
    st.maxAmplitude ≤ (recordingCallback ops st inv).1.maxAmplitude ∧
    st.rmsLevel ≤ (recordingCallback ops st inv).1.rmsLevel ∧
    tst.testMaxAmplitude ≤ (testCallback tst inv).testMaxAmplitude ∧
    st.maxAmplitude ≤ (runRecordingCallbacks ops st trace).maxAmplitude ∧
    st.rmsLevel ≤ (runRecordingCallbacks ops st trace).rmsLevel ∧
    tst.testMaxAmplitude ≤ (runTestCallbacks tst trace).testMaxAmplitude := by
  refine ⟨rfl, rfl, rfl, (recordingCallback_mono ops st inv).1,
    (recordingCallback_mono ops st inv).2, testCallback_mono tst inv, ?_, ?_, ?_⟩
  · induction trace generalizing st with
    | nil => exact le_rfl
    | cons i rest ih =>
      exact le_trans (recordingCallback_mono ops st i).1 (ih (recordingCallback ops st i).1)
  · induction trace generalizing st with
    | nil => exact le_rfl
    | cons i rest ih =>
      exact le_trans (recordingCallback_mono ops st i).2 (ih (recordingCallback ops st i).1)
  · induction trace generalizing tst with
    | nil => exact le_rfl
    | cons i rest ih => exact le_trans (testCallback_mono tst i) (ih (testCallback tst i))

/-! ## Lemmas on main and testMicrophone -/

lemma scanBuffer_fst_aux (xs : List ℚ) (b : Bool) (m : ℚ) :
    (xs.foldl (fun (acc : Bool × ℚ) sample =>
        (if |sample| > zeroThreshold then false else acc.1, max acc.2 |sample|)) (b, m)).1
      = (b && xs.all (fun x => ! decide (|x| > zeroThreshold))) := by
  induction xs generalizing b m with
  | nil => simp
  | cons x xs ih =>
    rw [List.foldl_cons, ih]
    by_cases hx : |x| > zeroThreshold
    · simp [hx]
    · simp [hx]

lemma scanBuffer_allZero_iff (xs : List ℚ) :
    (scanBuffer xs).1 = true ↔ ∀ x ∈ xs, ¬ |x| > zeroThreshold := by
  unfold scanBuffer
  rw [scanBuffer_fst_aux]
  simp

lemma zeroThreshold_pos : 0 < zeroThreshold := by
  unfold zeroThreshold; norm_num

lemma signalThreshold_pos : 0 < signalThreshold := by
  unfold signalThreshold; norm_num

lemma main_started (ops : FloatOps) (trace : List Invocation) (fileOpens : Bool) :
    main ops (EngineRun.started trace) fileOpens =
      let st := runRecordingCallbacks ops RecordingState.init trace
      let base : MainResult :=
        { exitCode := 0, startFailureReported := false, emptyCaptureReported := false
          silenceWarning := false, openFailureReported := false, file := none
          reportedFileSize := none, audioBuffer := st.audioBuffer
          callbackCount := st.callbackCount, totalFrames := st.totalFrames
          maxAmplitude := st.maxAmplitude, rmsLevel := st.rmsLevel }
      if st.audioBuffer.isEmpty then
        { base with exitCode := -1, emptyCaptureReported := true }
      else if !fileOpens then
        { base with exitCode := -1, silenceWarning := (scanBuffer st.audioBuffer).1
                    openFailureReported := true }
      else
        { base with
          exitCode := 0
          silenceWarning := (scanBuffer st.audioBuffer).1
          file := some ((prepareHeader (st.audioBuffer.map (floatToInt16 ops)).length).bytes
                    ++ pcmBytes (st.audioBuffer.map (floatToInt16 ops)))
          reportedFileSize :=
            some (wrapSize (36 + wrapSize ((st.audioBuffer.map (floatToInt16 ops)).length * 2))) } := by
  simp only [main, AudioAECWrapper.start, EngineRun.delivered]
  rfl

lemma main_audioBuffer (ops : FloatOps) (engine : EngineRun) (fileOpens : Bool) :
    (main ops engine fileOpens).audioBuffer
      = (runRecordingCallbacks ops RecordingState.init engine.delivered).audioBuffer := by
  simp only [main]
  split_ifs <;> rfl

/-! ## C3: start failure -/

/-- C3: when the start of the engine returns false, testMicrophone returns false and
main returns -1 at once, both reporting the start failure; nothing is ever appended to
either buffer, no output file is written, and both callback counters are 0. -/
theorem start_failure_aborts_session
    (ops : FloatOps) (engine : EngineRun) (fileOpens : Bool)
    (hstart : AudioAECWrapper.start engine = false) :
    (testMicrophone engine).ret = false ∧
    (testMicrophone engine).startFailureReported = true ∧
    (testMicrophone engine).testBuffer = [] ∧
    (testMicrophone engine).testCallbackCount = 0 ∧
    (main ops engine fileOpens).exitCode = -1 ∧
    (main ops engine fileOpens).startFailureReported = true ∧
    (main ops engine fileOpens).emptyCaptureReported = false ∧
    (main ops engine fileOpens).audioBuffer = [] ∧
    (main ops engine fileOpens).file = none ∧
    (main ops engine fileOpens).callbackCount = 0 := by
  cases engine with
  | startFailed =>
    simp [testMicrophone, main, AudioAECWrapper.start, EngineRun.delivered, runTestCallbacks,
      runRecordingCallbacks, TestState.init, RecordingState.init]
  | started trace => simp [AudioAECWrapper.start] at hstart

/-- Witness for C3: the engine run whose start fails. -/
theorem start_failure_aborts_session_witness :
    AudioAECWrapper.start EngineRun.startFailed = false ∧
    (testMicrophone EngineRun.startFailed).ret = false ∧
    (main binary32Ops EngineRun.startFailed true).exitCode = -1 ∧
    (main binary32Ops EngineRun.startFailed true).file = none ∧
    (main binary32Ops EngineRun.startFailed true).callbackCount = 0 :=
  have h := start_failure_aborts_session binary32Ops EngineRun.startFailed true rfl
  ⟨rfl, h.1, h.2.2.2.2.1, h.2.2.2.2.2.2.2.2.1, h.2.2.2.2.2.2.2.2.2⟩

/-! ## C4: empty capture against silent capture -/

/-- C4: after a successful start, main takes the empty-capture failure path exactly when
the session buffer holds no sample after stop; on that path it returns -1, writes no
file and emits no silence warning; a session that buffered at least one sample never
takes it, and when all its samples are zero main emits the silence warning instead. -/
theorem empty_capture_failure_iff_buffer_empty
    (ops : FloatOps) (engine : EngineRun) (fileOpens : Bool)
    (hstart : AudioAECWrapper.start engine = true) :
    ((main ops engine fileOpens).emptyCaptureReported = true ↔
      (runRecordingCallbacks ops RecordingState.init engine.delivered).audioBuffer.length = 0) ∧
    ((main ops engine fileOpens).emptyCaptureReported = true →
      (main ops engine fileOpens).exitCode = -1 ∧
      (main ops engine fileOpens).file = none ∧
      (main ops engine fileOpens).silenceWarning = false) ∧
    ((runRecordingCallbacks ops RecordingState.init engine.delivered).audioBuffer ≠ [] →
      (∀ x ∈ (runRecordingCallbacks ops RecordingState.init engine.delivered).audioBuffer,
        x = 0) →
      (main ops engine fileOpens).emptyCaptureReported = false ∧
      (main ops engine fileOpens).silenceWarning = true) := by
  cases engine with
  | startFailed => simp [AudioAECWrapper.start] at hstart
  | started trace =>
    rw [main_started]
    simp only [EngineRun.delivered]
    generalize (runRecordingCallbacks ops RecordingState.init trace) = st
    cases hbuf : st.audioBuffer with
    | nil => simp
    | cons x xs =>
      cases fileOpens with
      | false =>
        simp only [List.isEmpty_cons, Bool.false_eq_true, if_false, Bool.not_false, if_true]
        refine ⟨by simp, by simp, fun _ hz => ⟨trivial, ?_⟩⟩
        rw [scanBuffer_allZero_iff]
        intro y hy
        rw [hz y hy]
        simpa using zeroThreshold_pos.le
      | true =>
        simp only [List.isEmpty_cons, Bool.false_eq_true, if_false, Bool.not_true]
        refine ⟨by simp, by simp, fun _ hz => ⟨trivial, ?_⟩⟩
        rw [scanBuffer_allZero_iff]
        intro y hy
        rw [hz y hy]
        simpa using zeroThreshold_pos.le

lemma recording_buffer_eq (ops : FloatOps) (trace : List Invocation) :
    (runRecordingCallbacks ops RecordingState.init trace).audioBuffer
      = deliveredSamples (activeWindow trace) := by
  have h := (runRecordingCallbacks_buffer_max ops RecordingState.init trace le_rfl).1
  simpa [RecordingState.init] using h

/-- Witness for C4: a session in which nothing is delivered takes the empty-capture
path, and a session of all-zero batches gets the silence warning instead. -/
theorem empty_capture_failure_iff_buffer_empty_witness :
    AudioAECWrapper.start emptyRun = true ∧
    (main binary32Ops emptyRun true).emptyCaptureReported = true ∧
    (main binary32Ops emptyRun true).exitCode = -1 ∧
    (main binary32Ops emptyRun true).file = none ∧
    (main binary32Ops emptyRun true).silenceWarning = false ∧
    AudioAECWrapper.start silentRun = true ∧
    (main binary32Ops silentRun true).emptyCaptureReported = false ∧
    (main binary32Ops silentRun true).silenceWarning = true :=
  have h := empty_capture_failure_iff_buffer_empty binary32Ops emptyRun true rfl
  have hempty : (main binary32Ops emptyRun true).emptyCaptureReported = true := h.1.mpr rfl
  have h2 := empty_capture_failure_iff_buffer_empty binary32Ops silentRun true rfl
  have hsilent := h2.2.2
    (by
      simp only [silentRun, EngineRun.delivered]
      rw [recording_buffer_eq]
      simp [deliveredSamples, activeWindow, zeroBatch, lateLoudBatch])
    (by
      simp only [silentRun, EngineRun.delivered]
      rw [recording_buffer_eq]
      simp [deliveredSamples, activeWindow, zeroBatch, lateLoudBatch])
  ⟨rfl, hempty, (h.2.1 hempty).1, (h.2.1 hempty).2.1, (h.2.1 hempty).2.2, rfl,
    hsilent.1, hsilent.2⟩

/-! ## C5: a silent session -/

lemma activeSamples_zero {trace : List Invocation}
    (hzero : ∀ inv ∈ trace, inv.active = true → ∀ x ∈ inv.data, x = 0) :
    ∀ x ∈ deliveredSamples (activeWindow trace), x = 0 := by
  intro x hx
  simp only [deliveredSamples, activeWindow, List.mem_flatMap, List.mem_filter] at hx
  obtain ⟨inv, ⟨hin, hact⟩, hxin⟩ := hx
  exact hzero inv hin hact x hxin

lemma activeSamples_ne_nil {trace : List Invocation}
    (hsome : ∃ inv ∈ trace, inv.active = true ∧ 0 < inv.frames) :
    deliveredSamples (activeWindow trace) ≠ [] := by
  obtain ⟨inv, hin, hact, hpos⟩ := hsome
  obtain ⟨x, hx⟩ := List.exists_mem_of_length_pos hpos
  apply List.ne_nil_of_mem (a := x)
  simp only [deliveredSamples, activeWindow, List.mem_flatMap, List.mem_filter]
  exact ⟨inv, ⟨hin, hact⟩, hx⟩

/-- C5: when the engine starts and every batch it delivers while the flag is true is
all-zero, at least one of them with frameCount > 0, testMicrophone returns false (the
peak 0 does not exceed the threshold 0.001f), and main keeps allZero true and emits the
silence warning while its buffer is non-empty, so it does not take the empty-capture
path; when the file can be opened it writes the header followed by the quantised
samples and returns 0. -/
theorem silent_session_fails_self_test_and_warns
    (ops : FloatOps) (trace : List Invocation) (fileOpens : Bool)
    (hzero : ∀ inv ∈ trace, inv.active = true → ∀ x ∈ inv.data, x = 0)
    (hsome : ∃ inv ∈ trace, inv.active = true ∧ 0 < inv.frames) :
    (testMicrophone (EngineRun.started trace)).ret = false ∧
    (testMicrophone (EngineRun.started trace)).testMaxAmplitude = 0 ∧
    (main ops (EngineRun.started trace) fileOpens).silenceWarning = true ∧
    (main ops (EngineRun.started trace) fileOpens).audioBuffer ≠ [] ∧
    (main ops (EngineRun.started trace) fileOpens).emptyCaptureReported = false ∧
    (main ops (EngineRun.started trace) true).exitCode = 0 ∧
    (main ops (EngineRun.started trace) true).file
      = some ((prepareHeader (main ops (EngineRun.started trace) true).audioBuffer.length).bytes
          ++ pcmBytes ((main ops (EngineRun.started trace) true).audioBuffer.map
              (floatToInt16 ops))) := by
  have hz := activeSamples_zero hzero
  have hne := activeSamples_ne_nil hsome
  have hpeak : (runTestCallbacks TestState.init trace).testMaxAmplitude = 0 := by
    obtain ⟨x, hx, hxm⟩ := (test_peak_isTruePeak trace).2.2 hne
    rw [← hxm, hz x hx, abs_zero]
  have hscan : (scanBuffer (deliveredSamples (activeWindow trace))).1 = true := by
    rw [scanBuffer_allZero_iff]
    intro y hy
    rw [hz y hy]
    simpa using zeroThreshold_pos.le
  have hempty : (deliveredSamples (activeWindow trace)).isEmpty = false := by
    cases h : deliveredSamples (activeWindow trace) with
    | nil => exact absurd h hne
    | cons _ _ => rfl
  refine ⟨?_, ?_, ?_, ?_, ?_, ?_, ?_⟩
  · simp only [testMicrophone, AudioAECWrapper.start, EngineRun.delivered, hpeak]
    simpa using signalThreshold_pos.le
  · simp only [testMicrophone, AudioAECWrapper.start, EngineRun.delivered, hpeak]
    rfl
  · rw [main_started]
    simp only [recording_buffer_eq, hempty]
    cases fileOpens <;> simpa using hscan
  · rw [main_audioBuffer]
    simpa [EngineRun.delivered, recording_buffer_eq] using hne
  · rw [main_started]
    simp only [recording_buffer_eq, hempty]
    cases fileOpens <;> simp
  · rw [main_started]
    simp only [recording_buffer_eq, hempty]
    simp
  · rw [main_audioBuffer, main_started]
    simp only [EngineRun.delivered, recording_buffer_eq, hempty]
    simp

/-- Witness for C5: two all-zero batches in the active window followed by a batch with
signal after the flag was cleared. -/
theorem silent_session_fails_self_test_and_warns_witness :
    (testMicrophone silentRun).ret = false ∧
    (main binary32Ops silentRun true).silenceWarning = true ∧
    (main binary32Ops silentRun true).audioBuffer ≠ [] ∧
    (main binary32Ops silentRun true).exitCode = 0 :=
  have h := silent_session_fails_self_test_and_warns binary32Ops
    [zeroBatch, zeroBatch, lateLoudBatch] true
    (by
      intro inv hin hact x hx
      simp only [List.mem_cons, List.mem_singleton, List.not_mem_nil, or_false] at hin
      rcases hin with rfl | rfl | rfl
      · simpa [zeroBatch] using hx
      · simpa [zeroBatch] using hx
      · simp [lateLoudBatch] at hact)
    ⟨zeroBatch, by simp, rfl, by simp [zeroBatch, Invocation.frames]⟩
  ⟨h.1, h.2.2.1, h.2.2.2.1, h.2.2.2.2.2.1⟩

/-! ## C6 and C10: the WAV header and the file size -/

lemma prepareHeader_bytes_length (n : ℕ) : (prepareHeader n).bytes.length = 44 := by
  simp [WAVHeader.bytes, prepareHeader, leBytes]

lemma length_flatMap_int16Bytes (pcmBuffer : List ℤ) :
    (pcmBuffer.flatMap int16Bytes).length = 2 * pcmBuffer.length := by
  induction pcmBuffer with
  | nil => rfl
  | cons q rest ih =>
    simp only [List.flatMap_cons, List.length_append, List.length_cons, ih]
    simp only [int16Bytes, leBytes, List.length_map, List.length_range]
    ring

lemma pcmBytes_length (pcmBuffer : List ℤ) (h : 2 * pcmBuffer.length < 2 ^ 64) :
    (pcmBytes pcmBuffer).length = 2 * pcmBuffer.length := by
  have hw : wrapSize (pcmBuffer.length * 2) = 2 * pcmBuffer.length := by
    unfold wrapSize
    rw [Nat.mul_comm, Nat.mod_eq_of_lt h]
  unfold pcmBytes
  rw [List.length_take, hw, length_flatMap_int16Bytes, min_self]

/-- C6 as stated fails: for a buffer of 2^31 samples the data are 2^32 bytes, which the
32-bit field dataChunkSize cannot hold; the header gets dataChunkSize = 0 and
chunkSize = 36. -/
theorem header_sizes_wrap_for_huge_buffer :
    (prepareHeader (2 ^ 31)).dataChunkSize = 0 ∧
    (prepareHeader (2 ^ 31)).chunkSize = 36 ∧
    (prepareHeader (2 ^ 31)).dataChunkSize ≠ 2 * 2 ^ 31 ∧
    (prepareHeader (2 ^ 31)).chunkSize ≠ 36 + 2 * 2 ^ 31 := by
  simp [prepareHeader, wrapU32, wrapSize]

/-- C6 (amended): for every recorded buffer of n samples with 36 + 2*n < 2^32, the file
main writes is a header of 44 bytes followed by dataBytes = 2*n bytes of 16-bit sample
data, and the header has dataChunkSize = dataBytes and chunkSize = 36 + dataBytes. -/
theorem wav_header_sizes
    (ops : FloatOps) (trace : List Invocation)
    (hne : (runRecordingCallbacks ops RecordingState.init trace).audioBuffer ≠ [])
    (hfit : 36 + 2 * (runRecordingCallbacks ops RecordingState.init trace).audioBuffer.length
      < 2 ^ 32) :
    (main ops (EngineRun.started trace) true).file
      = some ((prepareHeader
            (runRecordingCallbacks ops RecordingState.init trace).audioBuffer.length).bytes
          ++ pcmBytes ((runRecordingCallbacks ops RecordingState.init trace).audioBuffer.map
              (floatToInt16 ops))) ∧
    (prepareHeader
      (runRecordingCallbacks ops RecordingState.init trace).audioBuffer.length).bytes.length
      = 44 ∧
    (pcmBytes ((runRecordingCallbacks ops RecordingState.init trace).audioBuffer.map
      (floatToInt16 ops))).length
      = 2 * (runRecordingCallbacks ops RecordingState.init trace).audioBuffer.length ∧
    (prepareHeader
      (runRecordingCallbacks ops RecordingState.init trace).audioBuffer.length).dataChunkSize
      = 2 * (runRecordingCallbacks ops RecordingState.init trace).audioBuffer.length ∧
    (prepareHeader
      (runRecordingCallbacks ops RecordingState.init trace).audioBuffer.length).chunkSize
      = 36 + 2 * (runRecordingCallbacks ops RecordingState.init trace).audioBuffer.length := by
  generalize hst : runRecordingCallbacks ops RecordingState.init trace = st at hne hfit
  have hd : wrapU32 (wrapSize (st.audioBuffer.length * 2)) = 2 * st.audioBuffer.length := by
    unfold wrapU32 wrapSize
    rw [Nat.mul_comm, Nat.mod_eq_of_lt (by omega), Nat.mod_eq_of_lt (by omega)]
  refine ⟨?_, prepareHeader_bytes_length _, ?_, ?_, ?_⟩
  · rw [main_started, hst]
    simp [hne]
  · rw [pcmBytes_length] <;> simp only [List.length_map]
    omega
  · simp only [prepareHeader, hd]
  · simp only [prepareHeader, hd]
    unfold wrapU32
    exact Nat.mod_eq_of_lt hfit

/-- Witness for C6 (amended): the session of one sine period, eight samples. -/
theorem wav_header_sizes_witness :
    (runRecordingCallbacks binary32Ops RecordingState.init
      [sineHalfUp, sineHalfDown]).audioBuffer.length = 8 ∧
    (prepareHeader 8).bytes.length = 44 ∧
    (prepareHeader 8).dataChunkSize = 16 ∧
    (prepareHeader 8).chunkSize = 52 := by
  have hlen : (runRecordingCallbacks binary32Ops RecordingState.init
      [sineHalfUp, sineHalfDown]).audioBuffer.length = 8 := by
    rw [recording_buffer_eq]
    simp [deliveredSamples, activeWindow, sineHalfUp, sineHalfDown]
  have h := wav_header_sizes binary32Ops [sineHalfUp, sineHalfDown]
    (by
      rw [recording_buffer_eq]
      simp [deliveredSamples, activeWindow, sineHalfUp, sineHalfDown])
    (by rw [hlen]; norm_num)
  rw [hlen] at h
  exact ⟨hlen, h.2.1, h.2.2.2.1, h.2.2.2.2⟩

/-- C10 fails on the code: for the session of one sine period (eight samples) main
writes 44 + 16 = 60 bytes and prints 36 + 16 = 52 as the file size. -/
theorem reported_file_size_is_eight_short :
    (main binary32Ops sineRun true).exitCode = 0 ∧
    (main binary32Ops sineRun true).audioBuffer.length = 8 ∧
    (main binary32Ops sineRun true).reportedFileSize = some 52 ∧
    (main binary32Ops sineRun true).file.map List.length = some 60 := by
  have hbuf : (runRecordingCallbacks binary32Ops RecordingState.init
      [sineHalfUp, sineHalfDown]).audioBuffer
      = [0, 1/4, 1/2, 1/4, 0, -1/4, -1/2, -1/4] := by
    rw [recording_buffer_eq]
    simp [deliveredSamples, activeWindow, sineHalfUp, sineHalfDown]
  have hpcm : ∀ l : List ℤ, l.length = 8 → (pcmBytes l).length = 16 := by
    intro l hl
    rw [pcmBytes_length l (by rw [hl]; norm_num), hl]
  refine ⟨?_, ?_, ?_, ?_⟩
  · rw [sineRun, main_started]
    simp [hbuf]
  · rw [main_audioBuffer]
    simp [sineRun, EngineRun.delivered, hbuf]
  · rw [sineRun, main_started]
    simp [hbuf, wrapSize]
  · rw [sineRun, main_started]
    simp only [hbuf, List.isEmpty_cons, Bool.false_eq_true, if_false, Bool.not_true,
      Option.map_some', List.length_append, prepareHeader_bytes_length]
    rw [hpcm _ (by simp)]

/-! ## C9: the indices the recording callback reads -/

/-- C9 fails on the code: on the 100th invocation, made while recording is true with
a batch of 3 frames, the callback reads data[0..2] in the statistics loop and in the
insert, and then data[0] to data[4] for the debug line: indices 3 and 4 are outside the
batch. -/
theorem debug_print_reads_past_short_batch :
    shortBatch.frames = 3 ∧
    (recordingCallback binary32Ops afterNinetyNine shortBatch).1.callbackCount = 100 ∧
    (recordingCallback binary32Ops afterNinetyNine shortBatch).2
      = [0, 1, 2, 0, 1, 2, 0, 1, 2, 3, 4] ∧
    ∃ i ∈ (recordingCallback binary32Ops afterNinetyNine shortBatch).2, ¬ i < shortBatch.frames := by
  have hc : wrapInt32 (99 + 1) = 100 := by decide
  have hr : (recordingCallback binary32Ops afterNinetyNine shortBatch).2
      = [0, 1, 2, 0, 1, 2, 0, 1, 2, 3, 4] := by
    simp only [recordingCallback, afterNinetyNine, shortBatch, Invocation.frames, if_true, hc]
    decide
  refine ⟨rfl, ?_, hr, 4, ?_, by decide⟩
  · simp only [recordingCallback, afterNinetyNine, shortBatch, if_true, hc]
  · rw [hr]; decide

/-! ## Lemmas on binary32 rounding -/

lemma roundHalfEven_intCast (n : ℤ) : roundHalfEven (n : ℚ) = n := by
  simp [roundHalfEven]

lemma floor_le_roundHalfEven (t : ℚ) : ⌊t⌋ ≤ roundHalfEven t := by
  unfold roundHalfEven
  split_ifs <;> omega

lemma roundHalfEven_le_floor_add_one (t : ℚ) : roundHalfEven t ≤ ⌊t⌋ + 1 := by
  unfold roundHalfEven
  split_ifs <;> omega

lemma roundHalfEven_mono {s t : ℚ} (h : s ≤ t) : roundHalfEven s ≤ roundHalfEven t := by
  rcases (Int.floor_le_floor h).lt_or_eq with hlt | heq
  · calc roundHalfEven s ≤ ⌊s⌋ + 1 := roundHalfEven_le_floor_add_one s
      _ ≤ ⌊t⌋ := hlt
      _ ≤ roundHalfEven t := floor_le_roundHalfEven t
  · unfold roundHalfEven
    rw [heq]
    split_ifs <;> first | omega | (exfalso; linarith)

lemma binary32Ulp_pos (a : ℚ) : 0 < binary32Ulp a := by
  unfold binary32Ulp
  positivity

lemma two_zpow_log_le {a : ℚ} (ha : 0 < a) : (2 : ℚ) ^ Int.log 2 a ≤ a := by
  have h := Int.zpow_log_le_self (b := 2) (by norm_num) ha
  simpa using h

lemma lt_two_zpow_log_succ (a : ℚ) : a < (2 : ℚ) ^ (Int.log 2 a + 1) := by
  have h := Int.lt_zpow_succ_log_self (b := 2) (by norm_num) a
  simpa using h

lemma roundMagnitude32_zero : roundMagnitude32 0 = 0 := by
  simp [roundMagnitude32, roundHalfEven]

lemma roundMagnitude32_nonneg {a : ℚ} (ha : 0 ≤ a) : 0 ≤ roundMagnitude32 a := by
  unfold roundMagnitude32
  have h0 : (0 : ℚ) ≤ a / binary32Ulp a := div_nonneg ha (binary32Ulp_pos a).le
  have h1 := roundHalfEven_mono h0
  have h2 : roundHalfEven 0 = 0 := by simpa using roundHalfEven_intCast 0
  rw [h2] at h1
  exact mul_nonneg (by exact_mod_cast h1) (binary32Ulp_pos a).le

lemma two_zpow_split (e : ℤ) : (2 : ℚ) ^ (e + 1) = 2 ^ 24 * 2 ^ (e - 23) := by
  rw [show e + 1 = 24 + (e - 23) by ring, zpow_add₀ (by norm_num)]
  norm_num

lemma two_zpow_split_low (e : ℤ) : (2 : ℚ) ^ e = 2 ^ 23 * 2 ^ (e - 23) := by
  rw [show e = 23 + (e - 23) by ring, zpow_add₀ (by norm_num)]
  norm_num

lemma roundMagnitude32_le {a : ℚ} :
    roundMagnitude32 a ≤ (2 : ℚ) ^ (max (Int.log 2 a) (-126) + 1) := by
  have hu := binary32Ulp_pos a
  have h1 : a < (2 : ℚ) ^ (max (Int.log 2 a) (-126) + 1) :=
    lt_of_lt_of_le (lt_two_zpow_log_succ a)
      (zpow_le_zpow_right₀ (by norm_num) (by have := le_max_left (Int.log 2 a) (-126); omega))
  rw [two_zpow_split] at h1 ⊢
  have h2 : a / binary32Ulp a ≤ ((2 ^ 24 : ℤ) : ℚ) := by
    rw [div_le_iff₀ hu]
    push_cast
    exact h1.le
  have h3 := roundHalfEven_mono h2
  rw [roundHalfEven_intCast] at h3
  unfold roundMagnitude32
  have h4 : (roundHalfEven (a / binary32Ulp a) : ℚ) ≤ 2 ^ 24 := by exact_mod_cast h3
  exact mul_le_mul_of_nonneg_right h4 hu.le

lemma le_roundMagnitude32 {a : ℚ} (ha : 0 < a) (hnorm : -126 ≤ Int.log 2 a) :
    (2 : ℚ) ^ Int.log 2 a ≤ roundMagnitude32 a := by
  have hu := binary32Ulp_pos a
  have hE : max (Int.log 2 a) (-126) = Int.log 2 a := max_eq_left hnorm
  have hudef : binary32Ulp a = (2 : ℚ) ^ (Int.log 2 a - 23) := by
    unfold binary32Ulp; rw [hE]
  have h1 := two_zpow_log_le ha
  rw [two_zpow_split_low, ← hudef] at h1 ⊢
  have h2 : ((2 ^ 23 : ℤ) : ℚ) ≤ a / binary32Ulp a := by
    rw [le_div_iff₀ hu]
    push_cast
    exact h1
  have h3 := roundHalfEven_mono h2
  rw [roundHalfEven_intCast] at h3
  unfold roundMagnitude32
  have h4 : (2 : ℚ) ^ 23 ≤ (roundHalfEven (a / binary32Ulp a) : ℚ) := by exact_mod_cast h3
  exact mul_le_mul_of_nonneg_right h4 hu.le

lemma roundMagnitude32_mono {a b : ℚ} (ha : 0 ≤ a) (h : a ≤ b) :
    roundMagnitude32 a ≤ roundMagnitude32 b := by
  rcases ha.eq_or_lt with rfl | hpos
  · rw [roundMagnitude32_zero]; exact roundMagnitude32_nonneg h
  · have hlog : Int.log 2 a ≤ Int.log 2 b := Int.log_mono_right hpos h
    have hE : max (Int.log 2 a) (-126) ≤ max (Int.log 2 b) (-126) := max_le_max hlog le_rfl
    rcases hE.eq_or_lt with heq | hlt
    · have hu : binary32Ulp a = binary32Ulp b := by unfold binary32Ulp; rw [heq]
      unfold roundMagnitude32
      rw [hu]
      have h1 := roundHalfEven_mono
        (div_le_div_of_nonneg_right h (binary32Ulp_pos b).le)
      exact mul_le_mul_of_nonneg_right (by exact_mod_cast h1) (binary32Ulp_pos b).le
    · have hb : -126 < Int.log 2 b := by
        by_contra hcon
        have h1 : max (Int.log 2 b) (-126) = -126 := max_eq_right (not_lt.mp hcon)
        have h2 := le_max_right (Int.log 2 a) (-126)
        omega
      have hEb : max (Int.log 2 b) (-126) = Int.log 2 b := max_eq_left hb.le
      rw [hEb] at hlt
      calc roundMagnitude32 a ≤ (2 : ℚ) ^ (max (Int.log 2 a) (-126) + 1) := roundMagnitude32_le
        _ ≤ (2 : ℚ) ^ Int.log 2 b := zpow_le_zpow_right₀ (by norm_num) (by omega)
        _ ≤ roundMagnitude32 b := le_roundMagnitude32 (lt_of_lt_of_le hpos h) hb.le

lemma roundBinary32_mono : Monotone roundBinary32 := by
  intro x y h
  unfold roundBinary32
  split_ifs with hx hy hy
  · exact roundMagnitude32_mono hx h
  · exact absurd (le_trans hx h) hy
  · have h1 : 0 ≤ roundMagnitude32 (-x) := roundMagnitude32_nonneg (by linarith)
    have h2 : 0 ≤ roundMagnitude32 y := roundMagnitude32_nonneg hy
    linarith
  · have h1 := roundMagnitude32_mono (a := -y) (b := -x) (by linarith) (by linarith)
    linarith

lemma roundMagnitude32_exact (m : ℕ) (k : ℤ) (hm : m < 2 ^ 24) (hk : -149 ≤ k) :
    roundMagnitude32 (m * (2 : ℚ) ^ k) = m * (2 : ℚ) ^ k := by
  rcases Nat.eq_zero_or_pos m with rfl | hpos
  · simp [roundMagnitude32_zero]
  · have h2k : (0 : ℚ) < (2 : ℚ) ^ k := by positivity
    have ha : (0 : ℚ) < m * (2 : ℚ) ^ k := mul_pos (by exact_mod_cast hpos) h2k
    have hlt : (m : ℚ) * (2 : ℚ) ^ k < (2 : ℚ) ^ (k + 24) := by
      rw [zpow_add₀ (by norm_num : (2 : ℚ) ≠ 0), mul_comm ((2 : ℚ) ^ k)]
      have hm2 : (m : ℚ) < (2 : ℚ) ^ (24 : ℤ) := by
        have e : (2 : ℚ) ^ (24 : ℤ) = ((2 ^ 24 : ℕ) : ℚ) := by norm_num
        rw [e]
        exact_mod_cast hm
      exact mul_lt_mul_of_pos_right hm2 h2k
    have hlog : Int.log 2 (m * (2 : ℚ) ^ k) < k + 24 := by
      have h := (Int.lt_zpow_iff_log_lt (b := 2) (by norm_num) ha (x := k + 24)).mp
        (by simpa using hlt)
      exact h
    have hE : max (Int.log 2 (m * (2 : ℚ) ^ k)) (-126) ≤ k + 23 := max_le (by omega) (by omega)
    obtain ⟨d, hd⟩ := Int.eq_ofNat_of_zero_le (sub_nonneg.mpr hE)
    have hk2 : k = (max (Int.log 2 (m * (2 : ℚ) ^ k)) (-126) - 23) + d := by omega
    have hu : binary32Ulp (m * (2 : ℚ) ^ k)
        = (2 : ℚ) ^ (max (Int.log 2 (m * (2 : ℚ) ^ k)) (-126) - 23) := rfl
    have hupos := binary32Ulp_pos (m * (2 : ℚ) ^ k)
    have hsplit : (2 : ℚ) ^ k = binary32Ulp (m * (2 : ℚ) ^ k) * 2 ^ d := by
      rw [hu]
      nth_rewrite 1 [hk2]
      rw [zpow_add₀ (by norm_num : (2 : ℚ) ≠ 0), zpow_natCast]
    have hdiv : (m : ℚ) * (2 : ℚ) ^ k / binary32Ulp (m * (2 : ℚ) ^ k)
        = ((m * 2 ^ d : ℤ) : ℚ) := by
      rw [div_eq_iff hupos.ne']
      nth_rewrite 1 [hsplit]
      push_cast
      ring
    unfold roundMagnitude32
    rw [hdiv, roundHalfEven_intCast, ← hdiv, div_mul_cancel₀ _ hupos.ne']

lemma roundBinary32_exact (m : ℕ) (k : ℤ) (hm : m < 2 ^ 24) (hk : -149 ≤ k) :
    roundBinary32 (m * (2 : ℚ) ^ k) = m * (2 : ℚ) ^ k ∧
    roundBinary32 (-(m * (2 : ℚ) ^ k)) = -(m * (2 : ℚ) ^ k) := by
  have hnn : (0 : ℚ) ≤ m * (2 : ℚ) ^ k := by positivity
  constructor
  · unfold roundBinary32
    rw [if_pos hnn, roundMagnitude32_exact m k hm hk]
  · unfold roundBinary32
    split_ifs with h
    · have h0 : (m : ℚ) * (2 : ℚ) ^ k = 0 := by linarith
      rw [h0, neg_zero, roundMagnitude32_zero]
    · rw [neg_neg, roundMagnitude32_exact m k hm hk]

lemma roundBinary32_intCast (n : ℤ) (hn : |n| ≤ 32768) : roundBinary32 (n : ℚ) = n := by
  obtain ⟨hlo, hhi⟩ := abs_le.mp hn
  rcases le_total 0 n with h0 | h0
  · have hc : ((n.toNat : ℤ) : ℚ) = (n : ℚ) := by rw [Int.toNat_of_nonneg h0]
    have h := (roundBinary32_exact n.toNat 0 (by omega) (by norm_num)).1
    rw [zpow_zero, mul_one] at h
    rw [← hc]
    exact_mod_cast h
  · have hc : (((-n).toNat : ℤ) : ℚ) = -(n : ℚ) := by
      rw [Int.toNat_of_nonneg (by omega)]; push_cast; ring
    have h := (roundBinary32_exact (-n).toNat 0 (by omega) (by norm_num)).2
    rw [zpow_zero, mul_one] at h
    have hn2 : (n : ℚ) = -(((-n).toNat : ℤ) : ℚ) := by rw [hc]; ring
    rw [hn2]
    exact_mod_cast h

/-! ## C7: quantisation round trip -/

lemma truncToZero_intCast (n : ℤ) : truncToZero (n : ℚ) = n := by
  unfold truncToZero
  split_ifs
  · exact Int.floor_intCast n
  · exact Int.ceil_intCast n

lemma truncToZero_mono {a b : ℚ} (h : a ≤ b) : truncToZero a ≤ truncToZero b := by
  unfold truncToZero
  split_ifs with ha hb hb
  · exact Int.floor_le_floor h
  · exact absurd (le_trans ha h) hb
  · have h1 : ⌈a⌉ ≤ 0 := Int.ceil_le.mpr (by exact_mod_cast (not_le.mp ha).le)
    have h2 : (0 : ℤ) ≤ ⌊b⌋ := Int.le_floor.mpr (by exact_mod_cast hb)
    exact le_trans h1 h2
  · exact Int.ceil_le_ceil h

lemma trunc_round_error (round : ℚ → ℚ) (hmono : Monotone round)
    (hint : ∀ n : ℤ, |n| ≤ 32768 → round n = n) (y : ℚ) (hylo : -32767 ≤ y)
    (hyhi : y ≤ 32767) :
    |y - (truncToZero (round y) : ℚ)| < 1 := by
  have hfl : ((⌊y⌋ : ℤ) : ℚ) ≤ y := Int.floor_le y
  have hlt : y < ((⌊y⌋ : ℤ) : ℚ) + 1 := Int.lt_floor_add_one y
  have hn1 : (-32767 : ℤ) ≤ ⌊y⌋ := Int.le_floor.mpr (by push_cast; exact hylo)
  have hn2 : ⌊y⌋ ≤ 32767 := by
    have : ((⌊y⌋ : ℤ) : ℚ) ≤ ((32767 : ℤ) : ℚ) := by push_cast; linarith
    exact_mod_cast this
  have hT : ∀ n : ℤ, |n| ≤ 32768 → truncToZero (round n) = n := fun n hn => by
    rw [hint n hn, truncToZero_intCast]
  have habs0 : |⌊y⌋| ≤ 32768 := abs_le.mpr ⟨by omega, by omega⟩
  have habs1 : |⌊y⌋ + 1| ≤ 32768 := abs_le.mpr ⟨by omega, by omega⟩
  have hlo : ⌊y⌋ ≤ truncToZero (round y) := by
    have := truncToZero_mono (hmono hfl)
    rwa [hT _ habs0] at this
  have hhi : truncToZero (round y) ≤ ⌊y⌋ + 1 := by
    have h1 : y ≤ (((⌊y⌋ + 1 : ℤ)) : ℚ) := by push_cast; exact hlt.le
    have := truncToZero_mono (hmono h1)
    rwa [hT _ habs1] at this
  have hloq : ((⌊y⌋ : ℤ) : ℚ) ≤ (truncToZero (round y) : ℚ) := by exact_mod_cast hlo
  have hhiq : (truncToZero (round y) : ℚ) ≤ ((⌊y⌋ : ℤ) : ℚ) + 1 := by exact_mod_cast hhi
  rw [abs_lt]
  constructor
  · rcases eq_or_lt_of_le hfl with heq | hstrict
    · have hq : truncToZero (round y) = ⌊y⌋ := by
        have := hT ⌊y⌋ habs0
        rwa [heq] at this
      rw [hq, heq]
      norm_num
    · linarith
  · linarith

lemma clamp_of_mem {x : ℚ} (hlo : -1 ≤ x) (hhi : x ≤ 1) : max (-1) (min 1 x) = x := by
  rw [min_eq_right hhi, max_eq_right hlo]

lemma floatToInt16_roundtrip (ops : FloatOps) (x : ℚ) (hlo : -1 ≤ x) (hhi : x ≤ 1)
    (hmono : Monotone ops.round) (hint : ∀ n : ℤ, |n| ≤ 32768 → ops.round n = n) :
    |x - dequantize (floatToInt16 ops x)| < 1 / 32767 ∧
    -32767 ≤ floatToInt16 ops x ∧ floatToInt16 ops x ≤ 32767 := by
  have hq : floatToInt16 ops x = truncToZero (ops.round (x * 32767)) := by
    simp only [floatToInt16, clamp_of_mem hlo hhi]
  have herr := trunc_round_error ops.round hmono hint (x * 32767) (by linarith) (by linarith)
  rw [← hq] at herr
  refine ⟨?_, ?_, ?_⟩
  · have hrew : x - dequantize (floatToInt16 ops x)
        = (x * 32767 - (floatToInt16 ops x : ℚ)) / 32767 := by
      unfold dequantize; ring
    rw [hrew, abs_div, abs_of_pos (by norm_num : (0 : ℚ) < 32767)]
    exact div_lt_div_of_pos_right herr (by norm_num)
  · have h1 : ((-32767 : ℤ) : ℚ) ≤ x * 32767 := by push_cast; linarith
    have := truncToZero_mono (hmono h1)
    rw [hint _ (by norm_num), truncToZero_intCast] at this
    rw [hq]; exact this
  · have h1 : x * 32767 ≤ ((32767 : ℤ) : ℚ) := by push_cast; linarith
    have := truncToZero_mono (hmono h1)
    rw [hint _ (by norm_num), truncToZero_intCast] at this
    rw [hq]; exact this

lemma justAboveStep_mem : -1 ≤ justAboveStep ∧ justAboveStep ≤ 1 := by
  unfold justAboveStep
  constructor <;> norm_num

lemma floatToInt16_justAboveStep : floatToInt16 binary32Ops justAboveStep = 0 := by
  have hc := (roundBinary32_exact (2 ^ 24 - 1) (-24) (by norm_num) (by norm_num)).1
  have h0 : roundBinary32 0 = 0 := by simpa using roundBinary32_intCast 0 (by norm_num)
  have hp0 : (0 : ℚ) ≤ justAboveStep * 32767 := by unfold justAboveStep; norm_num
  have hpc : justAboveStep * 32767 ≤ ((2 ^ 24 - 1 : ℕ) : ℚ) * (2 : ℚ) ^ (-24 : ℤ) := by
    unfold justAboveStep; norm_num
  have hlo := roundBinary32_mono hp0
  have hhi := roundBinary32_mono hpc
  rw [h0] at hlo
  rw [hc] at hhi
  have hlt : roundBinary32 (justAboveStep * 32767) < 1 :=
    lt_of_le_of_lt hhi (by norm_num)
  simp only [floatToInt16, binary32Ops, clamp_of_mem justAboveStep_mem.1 justAboveStep_mem.2,
    truncToZero, hlo, if_true]
  rw [Int.floor_eq_iff]
  exact ⟨by simpa using hlo, by simpa using hlt⟩

/-- C7 as stated fails: for the single-precision sample just above 1/32768 the product
with 32767 is below 1 (about 0.99997, and still below 1 after binary32 rounding), the
conversion truncates it to 0, and the reconstruction 0 is off by the sample itself,
which is more than 1/32768. -/
theorem roundtrip_error_exceeds_step :
    -1 ≤ justAboveStep ∧ justAboveStep ≤ 1 ∧
    floatToInt16 binary32Ops justAboveStep = 0 ∧
    ¬ |justAboveStep - dequantize (floatToInt16 binary32Ops justAboveStep)| ≤ 1 / 32768 := by
  refine ⟨justAboveStep_mem.1, justAboveStep_mem.2, floatToInt16_justAboveStep, ?_⟩
  rw [floatToInt16_justAboveStep]
  unfold dequantize justAboveStep
  norm_num [abs_of_pos]

/-- C7 (amended): for every sample x in [-1, 1], quantising x as main does (clamp to
[-1, 1], multiply by 32767 in binary32, truncate toward zero) gives a value q in the range
-32767 .. 32767 of a signed 16-bit integer, and q divided by the scale 32767 reconstructs
x with absolute error strictly below 1/32767. The same holds for any rounding of the
product that is monotone and leaves the integers of magnitude at most 32768 unchanged. -/
theorem roundtrip_error_below_scale_step (x : ℚ) (hlo : -1 ≤ x) (hhi : x ≤ 1) :
    (|x - dequantize (floatToInt16 binary32Ops x)| < 1 / 32767 ∧
      -32767 ≤ floatToInt16 binary32Ops x ∧ floatToInt16 binary32Ops x ≤ 32767) ∧
    ∀ ops : FloatOps, Monotone ops.round → (∀ n : ℤ, |n| ≤ 32768 → ops.round n = n) →
      |x - dequantize (floatToInt16 ops x)| < 1 / 32767 ∧
      -32767 ≤ floatToInt16 ops x ∧ floatToInt16 ops x ≤ 32767 :=
  ⟨floatToInt16_roundtrip binary32Ops x hlo hhi roundBinary32_mono roundBinary32_intCast,
    fun ops hmono hint => floatToInt16_roundtrip ops x hlo hhi hmono hint⟩

/-- Witness for C7 (amended): the sample just above 1/32768, which binary32 arithmetic
quantises to 0; binary32 rounding is monotone and exact on the integers up to 32768. -/
theorem roundtrip_error_below_scale_step_witness :
    -1 ≤ justAboveStep ∧ justAboveStep ≤ 1 ∧
    Monotone binary32Ops.round ∧ (∀ n : ℤ, |n| ≤ 32768 → binary32Ops.round n = n) ∧
    |justAboveStep - dequantize (floatToInt16 binary32Ops justAboveStep)| < 1 / 32767 ∧
    floatToInt16 binary32Ops justAboveStep = 0 :=
  ⟨justAboveStep_mem.1, justAboveStep_mem.2, roundBinary32_mono, roundBinary32_intCast,
    (roundtrip_error_below_scale_step justAboveStep justAboveStep_mem.1
      justAboveStep_mem.2).1.1,
    floatToInt16_justAboveStep⟩

end AudioAEC
